import Mathlib

/-!
Verification of the password-based file encryption/decryption module of the
ByteBastion repository (`src/modules/aes_crypto.py`, class `AESCrypto`).

Byte strings are modelled as `List Nat` (each byte a value below 256; none of
the verified properties depend on the upper bound). File I/O, console output
and progress display are modelled away: `encrypt_file` is modelled as the pure
function from (salt, iv, password, plaintext) to the container bytes that the
Python code writes, and `decrypt_file` as the pure function from
(password, container bytes) to the observable outcome - one of the three
distinct error behaviours of the Python code, or success carrying the
plaintext bytes it writes.

The `cryptography` third-party library primitives (PBKDF2-HMAC-SHA256 and the
AES-256 block permutation) are external to the repository and are held
abstract in `CryptoPrims`; the CBC chaining mode applied by
`modes.CBC` is modelled explicitly over the abstract block cipher, following
its standard definition (spec section 4 and glossary: each plaintext block is
XORed with the previous ciphertext block, initially the IV, before the block
cipher is applied).
-/

namespace ByteBastion

/-- Byte strings, modelled as lists of naturals. -/
abbrev Bytes := List Nat

/-- Field `salt_size` set in `AESCrypto.__init__`: 16 bytes for salt. -/
def salt_size : Nat := 16

/-- Field `iv_size` set in `AESCrypto.__init__`: 16 bytes for IV. -/
def iv_size : Nat := 16

/-- Field `key_size` set in `AESCrypto.__init__`: 32 bytes = 256 bits. -/
def key_size : Nat := 32

/-- Field `iterations` set in `AESCrypto.__init__`: PBKDF2 iteration count. -/
def iterations : Nat := 100000

/-- Abstract interface to the external `cryptography` library primitives used
by `aes_crypto.py` (these are third-party code, not part of the repository):
`pbkdf2HmacSha256 iterationCount dkLen password salt` is the PBKDF2-HMAC-SHA256
key-derivation function, and `aesEncBlock key block` / `aesDecBlock key block`
are the AES-256 forward and inverse block permutations on 16-byte blocks. -/
structure CryptoPrims where
  pbkdf2HmacSha256 : Nat → Nat → String → Bytes → Bytes
  aesEncBlock : Bytes → Bytes → Bytes
  aesDecBlock : Bytes → Bytes → Bytes

/-- `AESCrypto.derive_key`: builds a `PBKDF2HMAC` object with algorithm
SHA-256, `length=self.key_size`, the given salt and
`iterations=self.iterations`, and derives from the encoded password. -/
def derive_key (P : CryptoPrims) (password : String) (salt : Bytes) : Bytes :=
  P.pbkdf2HmacSha256 iterations key_size password salt

/-- Bytewise XOR of two equal-length blocks (the chaining step of CBC). -/
def xorBlock (a b : Bytes) : Bytes :=
  List.zipWith (fun x y => x ^^^ y) a b

/-- PKCS#7 padding as applied in `AESCrypto.encrypt_file`:
`padding_length = 16 - (len(plaintext) % 16)` followed by
`plaintext += bytes([padding_length] * padding_length)`. -/
def pkcs7pad (plaintext : Bytes) : Bytes :=
  plaintext ++ List.replicate (16 - plaintext.length % 16) (16 - plaintext.length % 16)

/-- CBC-mode encryption of `n` 16-byte blocks of `data` with block cipher
`enc`, chaining from `prev` (initially the IV): this is what
`cipher.encryptor()` of the library computes for AES in `modes.CBC`. The
block count `n` is passed as fuel so the recursion is structural. -/
def cbcEncryptBytes (enc : Bytes → Bytes) : Nat → Bytes → Bytes → Bytes
  | 0, _, _ => []
  | n + 1, prev, data =>
    let c := enc (xorBlock prev (data.take 16))
    c ++ cbcEncryptBytes enc n c (data.drop 16)

/-- CBC-mode decryption of `n` 16-byte blocks of `data` with inverse block
cipher `dec`, chaining from `prev` (initially the IV): this is what
`cipher.decryptor()` of the library computes for AES in `modes.CBC`. -/
def cbcDecryptBytes (dec : Bytes → Bytes) : Nat → Bytes → Bytes → Bytes
  | 0, _, _ => []
  | n + 1, prev, data =>
    xorBlock prev (dec (data.take 16)) ++ cbcDecryptBytes dec n (data.take 16) (data.drop 16)

/-- `AESCrypto.encrypt_file`, modelled as the pure container-producing
function: derive the key from (password, salt), apply PKCS#7 padding, CBC
encrypt, and emit `salt + iv + ciphertext` (the write at the end of
`encrypt_file`: `f.write(salt); f.write(iv); f.write(ciphertext)`).
Salt and IV are 16 fresh random bytes in the Python code; here they are taken
as arguments. File-existence and key-derivation failure paths return `False`
in Python before any bytes are produced and are outside this model. -/
def encrypt_file (P : CryptoPrims) (salt iv : Bytes) (password : String) (plaintext : Bytes) : Bytes :=
  let key := derive_key P password salt
  let padded := pkcs7pad plaintext
  let ciphertext := cbcEncryptBytes (P.aesEncBlock key) (padded.length / 16) iv padded
  salt ++ iv ++ ciphertext

/-- Observable outcome of `AESCrypto.decrypt_file`. The Python function
returns a `bool`; the three `False` paths are distinguishable by the message
they print:
* `malformedContainer` - the structural check
  `len(salt) != self.salt_size or len(iv) != self.iv_size` fails and
  "Invalid encrypted file format" is printed;
* `wrongPasswordOrCorrupt` - the inner `except` around
  `decryptor.update(ciphertext) + decryptor.finalize()` fires and the
  ambiguous "Decryption failed / wrong password / corrupted file / invalid
  format" panel is printed;
* `genericError` - an exception reaches the outer handler
  ("Error during decryption"), e.g. the `IndexError` from
  `padded_plaintext[-1]` on an empty buffer;
* `success plaintext` - the function writes `plaintext` and returns `True`. -/
inductive DecryptResult where
  | malformedContainer : DecryptResult
  | wrongPasswordOrCorrupt : DecryptResult
  | genericError : DecryptResult
  | success : Bytes → DecryptResult
deriving DecidableEq, Repr

/-- The `bool` that `AESCrypto.decrypt_file` returns for each outcome. -/
def returnValue : DecryptResult → Bool
  | DecryptResult.success _ => true
  | _ => false

/-- `AESCrypto.decrypt_file`, modelled on the container bytes:
read `salt = f.read(16)`, `iv = f.read(16)`, `ciphertext = f.read()`; fail
structurally if salt or IV are short; derive the key; CBC decrypt (the
library raises in `finalize()` when the ciphertext length is not a multiple
of the block size, which the inner handler turns into the ambiguous failure);
then `padding_length = padded_plaintext[-1]` (an `IndexError` on an empty
buffer reaches the outer generic handler) and
`plaintext = padded_plaintext[:-padding_length]` - note the Python slice
yields the empty string when `padding_length` is `0`, and no byte of the
padding is ever validated. -/
def decrypt_file (P : CryptoPrims) (password : String) (container : Bytes) : DecryptResult :=
  let salt := container.take salt_size
  let iv := (container.drop salt_size).take iv_size
  let ciphertext := (container.drop salt_size).drop iv_size
  if salt.length ≠ salt_size ∨ iv.length ≠ iv_size then
    DecryptResult.malformedContainer
  else
    let key := derive_key P password salt
    if ciphertext.length % 16 ≠ 0 then
      DecryptResult.wrongPasswordOrCorrupt
    else
      let padded := cbcDecryptBytes (P.aesDecBlock key) (ciphertext.length / 16) iv ciphertext
      match padded.getLast? with
      | none => DecryptResult.genericError
      | some padding_length =>
        DecryptResult.success
          (if padding_length = 0 then [] else padded.take (padded.length - padding_length))

/-- Trivial instantiation of the external primitives, used only to evaluate
the model at concrete inputs: key derivation returns an all-zero key of the
requested length and the block cipher is the identity permutation. -/
def idPrims : CryptoPrims where
  pbkdf2HmacSha256 := fun _ len _ _ => List.replicate len 0
  aesEncBlock := fun _ b => b
  aesDecBlock := fun _ b => b

theorem length_xorBlock (a b : Bytes) : (xorBlock a b).length = min a.length b.length :=
  List.length_zipWith _ a b

theorem xorBlock_xorBlock (a : Bytes) : ∀ b : Bytes, a.length = b.length →
    xorBlock a (xorBlock a b) = b := by
  induction a with
  | nil =>
    intro b h
    have : b = [] := List.length_eq_zero.mp (by simpa using h.symm)
    simp [this, xorBlock]
  | cons x xs ih =>
    intro b h
    cases b with
    | nil => simp at h
    | cons y ys =>
      simp only [xorBlock, List.zipWith]
      have hx : x ^^^ (x ^^^ y) = y := by
        rw [← Nat.xor_assoc, Nat.xor_self, Nat.zero_xor]
      have hys : xorBlock xs (xorBlock xs ys) = ys := ih ys (by simpa using h)
      simp only [xorBlock] at hys
      rw [hx, hys]

theorem pkcs7pad_padLen_pos (p : Bytes) : 1 ≤ 16 - p.length % 16 := by
  omega

theorem pkcs7pad_padLen_le (p : Bytes) : 16 - p.length % 16 ≤ 16 := by
  omega

theorem length_pkcs7pad (p : Bytes) :
    (pkcs7pad p).length = p.length + (16 - p.length % 16) := by
  simp [pkcs7pad]

theorem length_pkcs7pad_mod (p : Bytes) : (pkcs7pad p).length % 16 = 0 := by
  rw [length_pkcs7pad]; omega

theorem length_cbcEncryptBytes (enc : Bytes → Bytes)
    (henc : ∀ b : Bytes, b.length = 16 → (enc b).length = 16) :
    ∀ (n : Nat) (prev data : Bytes), prev.length = 16 → data.length = 16 * n →
      (cbcEncryptBytes enc n prev data).length = 16 * n := by
  intro n
  induction n with
  | zero => intro prev data _ _; rfl
  | succ k ih =>
    intro prev data hprev hdata
    have htake : (data.take 16).length = 16 := by
      rw [List.length_take]; omega
    have hx : (xorBlock prev (data.take 16)).length = 16 := by
      rw [length_xorBlock, hprev, htake]; exact Nat.min_self 16
    have hc : (enc (xorBlock prev (data.take 16))).length = 16 := henc _ hx
    simp only [cbcEncryptBytes, List.length_append]
    rw [hc, ih _ _ hc (by rw [List.length_drop]; omega)]
    omega

theorem length_cbcDecryptBytes (dec : Bytes → Bytes)
    (hdec : ∀ b : Bytes, b.length = 16 → (dec b).length = 16) :
    ∀ (n : Nat) (prev data : Bytes), prev.length = 16 → data.length = 16 * n →
      (cbcDecryptBytes dec n prev data).length = 16 * n := by
  intro n
  induction n with
  | zero => intro prev data _ _; rfl
  | succ k ih =>
    intro prev data hprev hdata
    have htake : (data.take 16).length = 16 := by
      rw [List.length_take]; omega
    have hd : (dec (data.take 16)).length = 16 := hdec _ htake
    have hx : (xorBlock prev (dec (data.take 16))).length = 16 := by
      rw [length_xorBlock, hprev, hd]; exact Nat.min_self 16
    simp only [cbcDecryptBytes, List.length_append]
    rw [hx, ih _ _ htake (by rw [List.length_drop]; omega)]
    omega

theorem cbcDecrypt_cbcEncrypt (enc dec : Bytes → Bytes)
    (henc : ∀ b : Bytes, b.length = 16 → (enc b).length = 16)
    (hinv : ∀ b : Bytes, b.length = 16 → dec (enc b) = b) :
    ∀ (n : Nat) (prev data : Bytes), prev.length = 16 → data.length = 16 * n →
      cbcDecryptBytes dec n prev (cbcEncryptBytes enc n prev data) = data := by
  intro n
  induction n with
  | zero =>
    intro prev data _ hdata
    have hnil : data = [] := List.length_eq_zero.mp (by omega)
    simp [hnil, cbcEncryptBytes, cbcDecryptBytes]
  | succ k ih =>
    intro prev data hprev hdata
    have htake : (data.take 16).length = 16 := by
      rw [List.length_take]; omega
    have hx : (xorBlock prev (data.take 16)).length = 16 := by
      rw [length_xorBlock, hprev, htake]; exact Nat.min_self 16
    have hc : (enc (xorBlock prev (data.take 16))).length = 16 := henc _ hx
    simp only [cbcEncryptBytes, cbcDecryptBytes]
    rw [List.take_left' hc, List.drop_left' hc, hinv _ hx,
      xorBlock_xorBlock prev (data.take 16) (by rw [hprev, htake]),
      ih _ _ hc (by rw [List.length_drop]; omega), List.take_append_drop]

theorem length_encrypt_file (P : CryptoPrims) (salt iv : Bytes)
    (hsalt : salt.length = 16) (hiv : iv.length = 16)
    (henc : ∀ key b : Bytes, b.length = 16 → (P.aesEncBlock key b).length = 16)
    (password : String) (plaintext : Bytes) :
    (encrypt_file P salt iv password plaintext).length = 32 + (pkcs7pad plaintext).length := by
  have hmod := length_pkcs7pad_mod plaintext
  have hpl : (pkcs7pad plaintext).length = 16 * ((pkcs7pad plaintext).length / 16) := by omega
  have hct := length_cbcEncryptBytes _ (fun b hb => henc (derive_key P password salt) b hb)
    ((pkcs7pad plaintext).length / 16) iv (pkcs7pad plaintext) hiv hpl
  simp only [encrypt_file, List.length_append, hsalt, hiv, hct]
  omega

theorem decrypt_wellformed_success (P : CryptoPrims) (password : String)
    (hdec : ∀ key b : Bytes, b.length = 16 → (P.aesDecBlock key b).length = 16)
    (container : Bytes) (h33 : 33 ≤ container.length)
    (hmod : (container.length - 32) % 16 = 0) :
    ∃ out : Bytes, decrypt_file P password container = DecryptResult.success out := by
  have h1 : (container.take 16).length = 16 := by simp only [List.length_take]; omega
  have h2 : ((container.drop 16).take 16).length = 16 := by
    simp only [List.length_take, List.length_drop]; omega
  have hctlen : ((container.drop 16).drop 16).length = container.length - 32 := by
    simp only [List.length_drop]; omega
  have hpadlen : (cbcDecryptBytes (P.aesDecBlock (derive_key P password (container.take 16)))
      (((container.drop 16).drop 16).length / 16) ((container.drop 16).take 16)
      ((container.drop 16).drop 16)).length =
      16 * (((container.drop 16).drop 16).length / 16) :=
    length_cbcDecryptBytes _ (fun b hb => hdec _ b hb) _ _ _ h2 (by omega)
  obtain ⟨x, hx⟩ : ∃ x, (cbcDecryptBytes (P.aesDecBlock (derive_key P password (container.take 16)))
      (((container.drop 16).drop 16).length / 16) ((container.drop 16).take 16)
      ((container.drop 16).drop 16)).getLast? = some x := by
    cases hgl : (cbcDecryptBytes (P.aesDecBlock (derive_key P password (container.take 16)))
        (((container.drop 16).drop 16).length / 16) ((container.drop 16).take 16)
        ((container.drop 16).drop 16)).getLast? with
    | some x => exact ⟨x, rfl⟩
    | none =>
      exfalso
      have hnil := List.getLast?_eq_none_iff.mp hgl
      rw [hnil] at hpadlen
      simp only [List.length_nil] at hpadlen
      omega
  simp only [decrypt_file, salt_size, iv_size]
  rw [if_neg (by simp [h1, h2]), if_neg (by omega), hx]
  exact ⟨_, rfl⟩

/-- Claim C1: for every plaintext byte string (including the empty string and
strings whose length is an exact multiple of 16) and every non-empty
passphrase, decrypting the container produced by `encrypt_file` with the same
passphrase succeeds and returns exactly the original plaintext. The AES block
cipher is assumed to be a length-preserving permutation on 16-byte blocks
inverted by `aesDecBlock`. -/
theorem roundtrip_decrypt_encrypt (P : CryptoPrims) (password : String)
    (hpw : password ≠ "") (salt iv : Bytes)
    (hsalt : salt.length = 16) (hiv : iv.length = 16)
    (henc : ∀ key b : Bytes, b.length = 16 → (P.aesEncBlock key b).length = 16)
    (hinv : ∀ key b : Bytes, b.length = 16 → P.aesDecBlock key (P.aesEncBlock key b) = b)
    (plaintext : Bytes) :
    decrypt_file P password (encrypt_file P salt iv password plaintext) =
      DecryptResult.success plaintext := by
  have hmod := length_pkcs7pad_mod plaintext
  have hpl : (pkcs7pad plaintext).length = 16 * ((pkcs7pad plaintext).length / 16) := by
    omega
  have hct : (cbcEncryptBytes (P.aesEncBlock (derive_key P password salt))
      ((pkcs7pad plaintext).length / 16) iv (pkcs7pad plaintext)).length =
      16 * ((pkcs7pad plaintext).length / 16) :=
    length_cbcEncryptBytes _ (fun b hb => henc _ b hb) _ iv (pkcs7pad plaintext) hiv hpl
  simp only [encrypt_file, decrypt_file, salt_size, iv_size]
  rw [List.append_assoc]
  rw [List.take_left' hsalt, List.drop_left' hsalt, List.take_left' hiv, List.drop_left' hiv]
  rw [if_neg (by simp [hsalt, hiv])]
  rw [if_neg (by omega)]
  have hdiv : (cbcEncryptBytes (P.aesEncBlock (derive_key P password salt))
      ((pkcs7pad plaintext).length / 16) iv (pkcs7pad plaintext)).length / 16 =
      (pkcs7pad plaintext).length / 16 := by omega
  rw [hdiv]
  rw [cbcDecrypt_cbcEncrypt (P.aesEncBlock (derive_key P password salt))
    (P.aesDecBlock (derive_key P password salt))
    (fun b hb => henc _ b hb) (fun b hb => hinv _ b hb) _ iv (pkcs7pad plaintext) hiv hpl]
  have hpos := pkcs7pad_padLen_pos plaintext
  rw [show pkcs7pad plaintext =
    plaintext ++ List.replicate (16 - plaintext.length % 16) (16 - plaintext.length % 16) from rfl]
  rw [List.getLast?_append]
  rw [List.getLast?_replicate]
  simp only [show (16 - plaintext.length % 16) ≠ 0 by omega, if_false, Option.or]
  rw [List.length_append, List.length_replicate]
  rw [show plaintext.length + (16 - plaintext.length % 16) - (16 - plaintext.length % 16) =
    plaintext.length from by omega]
  rw [List.take_left]

/-- Witness for claim C1 at plaintext `[1, 2, 3]`, passphrase "passphrase" and
the identity instantiation of the primitives. -/
theorem roundtrip_decrypt_encrypt_witness :
    decrypt_file idPrims "passphrase"
      (encrypt_file idPrims (List.replicate 16 0) (List.replicate 16 0) "passphrase" [1, 2, 3]) =
      DecryptResult.success [1, 2, 3] :=
  roundtrip_decrypt_encrypt idPrims "passphrase" (by decide)
    (List.replicate 16 0) (List.replicate 16 0) (by decide) (by decide)
    (fun _ b hb => hb) (fun _ b _ => rfl) [1, 2, 3]

/-- Claim C2 (refuting evaluation): a container whose CBC decryption ends in the
byte 5 while the last five bytes are `1, 2, 3, 4, 5` - an invalid PKCS#7 pad -
is nevertheless accepted: `decrypt_file` reports success and strips five
bytes. The code performs no padding validation at all (it neither checks
`1 <= padLen <= 16` nor compares the pad bytes), contradicting the claim that
such inputs fail with `WrongPasswordOrCorrupt`. -/
theorem decrypt_accepts_invalid_padding :
    decrypt_file idPrims "password123"
      (List.replicate 16 0 ++ List.replicate 16 0 ++ (List.replicate 11 0 ++ [1, 2, 3, 4, 5])) =
      DecryptResult.success (List.replicate 11 0) ∧
    (List.replicate 11 0 ++ [1, 2, 3, 4, 5] : Bytes).drop (16 - 5) ≠ List.replicate 5 5 := by
  decide

/-- Claim C3 (refuting theorem): decrypting a container produced by
`encrypt_file` reports success (returns `True`) for EVERY passphrase,
including every wrong one - it never fails with `WrongPasswordOrCorrupt`.
Raw CBC decryption cannot fail on block-aligned input and no padding byte is
ever validated, so the claim that wrong passphrases fail is false on the
code. -/
theorem decrypt_succeeds_for_any_password (P : CryptoPrims)
    (henc : ∀ key b : Bytes, b.length = 16 → (P.aesEncBlock key b).length = 16)
    (hdec : ∀ key b : Bytes, b.length = 16 → (P.aesDecBlock key b).length = 16)
    (salt iv : Bytes) (hsalt : salt.length = 16) (hiv : iv.length = 16)
    (password attempt : String) (hwrong : attempt ≠ password) (plaintext : Bytes) :
    ∃ out : Bytes,
      decrypt_file P attempt (encrypt_file P salt iv password plaintext) =
        DecryptResult.success out ∧
      returnValue (decrypt_file P attempt (encrypt_file P salt iv password plaintext)) = true := by
  have hlen := length_encrypt_file P salt iv hsalt hiv henc password plaintext
  have hpadmod := length_pkcs7pad_mod plaintext
  have hpadpos := pkcs7pad_padLen_pos plaintext
  have hpadlen := length_pkcs7pad plaintext
  obtain ⟨out, hout⟩ := decrypt_wellformed_success P attempt hdec
    (encrypt_file P salt iv password plaintext) (by omega) (by omega)
  exact ⟨out, hout, by rw [hout]; rfl⟩

/-- Witness for claim C3: a container encrypted under "original" is decrypted
with the different passphrase "attempt" and still reports success. -/
theorem decrypt_succeeds_for_any_password_witness :
    ∃ out : Bytes,
      decrypt_file idPrims "attempt"
        (encrypt_file idPrims (List.replicate 16 0) (List.replicate 16 0) "original" [1, 2, 3]) =
        DecryptResult.success out ∧
      returnValue (decrypt_file idPrims "attempt"
        (encrypt_file idPrims (List.replicate 16 0) (List.replicate 16 0) "original" [1, 2, 3])) = true :=
  decrypt_succeeds_for_any_password idPrims (fun _ b hb => hb) (fun _ b hb => hb)
    (List.replicate 16 0) (List.replicate 16 0) (by decide) (by decide)
    "original" "attempt" (by decide) [1, 2, 3]

/-- Claim C4 (counterexample): a 33-byte container - whose ciphertext portion has
length 1, not a multiple of 16 - is rejected through the ambiguous
wrong-password-or-corrupt error raised at cipher finalization, NOT through
the structural `MalformedContainer` error the claim requires. The routing
happens before any cryptographic primitive is consulted. -/
theorem nonmultiple_ciphertext_not_malformed :
    decrypt_file idPrims "anypassword" (List.replicate 33 0) =
      DecryptResult.wrongPasswordOrCorrupt ∧
    decrypt_file idPrims "anypassword" (List.replicate 33 0) ≠
      DecryptResult.malformedContainer := by
  decide

/-- Claim C4 (amended): a container shorter than 32 bytes is rejected with the
structural `MalformedContainer` error regardless of passphrase; a container
of length at least 32 whose ciphertext portion has length not a multiple of
16 is also rejected regardless of passphrase, but with the ambiguous
wrong-password-or-corrupt error (the cipher-finalization exception caught by
the inner handler), not the structural error. -/
theorem malformed_container_routing (P : CryptoPrims) (password : String)
    (container : Bytes)
    (h : container.length < 32 ∨ (container.length - 32) % 16 ≠ 0) :
    decrypt_file P password container =
      (if container.length < 32 then DecryptResult.malformedContainer
       else DecryptResult.wrongPasswordOrCorrupt) := by
  by_cases hlt : container.length < 32
  · rw [if_pos hlt]
    simp only [decrypt_file, salt_size, iv_size]
    rw [if_pos (by simp only [List.length_take, List.length_drop]; omega)]
  · rw [if_neg hlt]
    simp only [decrypt_file, salt_size, iv_size]
    rw [if_neg (by simp only [List.length_take, List.length_drop]; omega),
      if_pos (by simp only [List.length_drop]; omega)]

/-- Witness for the amended claim C4 at a 20-byte container, which is rejected
structurally. -/
theorem malformed_container_routing_witness :
    decrypt_file idPrims "pw" (List.replicate 20 0) = DecryptResult.malformedContainer := by
  have h := malformed_container_routing idPrims "pw" (List.replicate 20 0) (by decide)
  simpa using h

/-- Claim C5: every container produced by `encrypt_file` is the concatenation
`salt(16) ++ iv(16) ++ ciphertext` with the ciphertext the CBC encryption of
the padded plaintext under the derived key; its total length is at least 32
and the length minus 32 is a multiple of 16. -/
theorem container_layout (P : CryptoPrims) (password : String) (salt iv : Bytes)
    (hsalt : salt.length = 16) (hiv : iv.length = 16)
    (henc : ∀ key b : Bytes, b.length = 16 → (P.aesEncBlock key b).length = 16)
    (plaintext : Bytes) :
    encrypt_file P salt iv password plaintext =
      salt ++ iv ++ cbcEncryptBytes (P.aesEncBlock (derive_key P password salt))
        ((pkcs7pad plaintext).length / 16) iv (pkcs7pad plaintext) ∧
    32 ≤ (encrypt_file P salt iv password plaintext).length ∧
    ((encrypt_file P salt iv password plaintext).length - 32) % 16 = 0 := by
  have hlen := length_encrypt_file P salt iv hsalt hiv henc password plaintext
  have hpadmod := length_pkcs7pad_mod plaintext
  have hpadlen := length_pkcs7pad plaintext
  exact ⟨rfl, by omega, by omega⟩

/-- Witness for claim C5 at plaintext `[7]` and the identity instantiation of
the primitives. -/
theorem container_layout_witness :
    encrypt_file idPrims (List.replicate 16 0) (List.replicate 16 0) "pw" [7] =
      List.replicate 16 0 ++ List.replicate 16 0 ++
        cbcEncryptBytes (idPrims.aesEncBlock (derive_key idPrims "pw" (List.replicate 16 0)))
          ((pkcs7pad [7]).length / 16) (List.replicate 16 0) (pkcs7pad [7]) ∧
    32 ≤ (encrypt_file idPrims (List.replicate 16 0) (List.replicate 16 0) "pw" [7]).length ∧
    ((encrypt_file idPrims (List.replicate 16 0) (List.replicate 16 0) "pw" [7]).length - 32) % 16 = 0 :=
  container_layout idPrims "pw" (List.replicate 16 0) (List.replicate 16 0)
    (by decide) (by decide) (fun _ b hb => hb) [7]

/-- Claim C6: `pkcs7pad` keeps the plaintext as prefix and appends exactly
`padLen = 16 - len % 16` bytes, each of value `padLen`, with
`1 <= padLen <= 16`; in particular when the length is already a multiple of
16 a full block of 16 padding bytes is appended, never zero bytes. -/
theorem pkcs7_padding_rule (p : Bytes) :
    (pkcs7pad p).length = p.length + (16 - p.length % 16) ∧
    (pkcs7pad p).take p.length = p ∧
    (pkcs7pad p).drop p.length = List.replicate (16 - p.length % 16) (16 - p.length % 16) ∧
    1 ≤ 16 - p.length % 16 ∧ 16 - p.length % 16 ≤ 16 ∧
    (p.length % 16 = 0 → 16 - p.length % 16 = 16) :=
  ⟨length_pkcs7pad p, List.take_left p _, List.drop_left p _,
    pkcs7pad_padLen_pos p, pkcs7pad_padLen_le p, by omega⟩

/-- Witness for claim C6 at a 32-byte plaintext (an exact multiple of 16), which
receives a full extra block of padding. -/
theorem pkcs7_padding_rule_witness :
    (pkcs7pad (List.replicate 32 0)).length =
      (List.replicate 32 (0 : Nat)).length + (16 - (List.replicate 32 (0 : Nat)).length % 16) ∧
    (pkcs7pad (List.replicate 32 0)).take (List.replicate 32 (0 : Nat)).length = List.replicate 32 0 ∧
    (pkcs7pad (List.replicate 32 0)).drop (List.replicate 32 (0 : Nat)).length =
      List.replicate (16 - (List.replicate 32 (0 : Nat)).length % 16)
        (16 - (List.replicate 32 (0 : Nat)).length % 16) ∧
    1 ≤ 16 - (List.replicate 32 (0 : Nat)).length % 16 ∧
    16 - (List.replicate 32 (0 : Nat)).length % 16 ≤ 16 ∧
    ((List.replicate 32 (0 : Nat)).length % 16 = 0 →
      16 - (List.replicate 32 (0 : Nat)).length % 16 = 16) :=
  pkcs7_padding_rule (List.replicate 32 0)

/-- Claim C7: `derive_key` invokes PBKDF2-HMAC-SHA256 with the fixed iteration
count 100000 and fixed derived-key length 32, returns exactly 32 bytes
(granted the library KDF honours its length parameter), and is deterministic:
identical (passphrase, salt) inputs yield identical output - immediate here
since the model is a pure function of those two arguments. -/
theorem derive_key_spec (P : CryptoPrims)
    (hlen : ∀ (it dkLen : Nat) (pw : String) (s : Bytes),
      (P.pbkdf2HmacSha256 it dkLen pw s).length = dkLen)
    (password : String) (salt : Bytes) (hsalt : salt.length = 16) :
    derive_key P password salt = P.pbkdf2HmacSha256 100000 32 password salt ∧
    (derive_key P password salt).length = 32 ∧
    (∀ (password2 : String) (salt2 : Bytes), password2 = password → salt2 = salt →
      derive_key P password2 salt2 = derive_key P password salt) :=
  ⟨rfl, hlen 100000 32 password salt, fun _ _ h1 h2 => by rw [h1, h2]⟩

/-- Witness for claim C7 at passphrase "pw" and a 16-byte zero salt. -/
theorem derive_key_spec_witness :
    derive_key idPrims "pw" (List.replicate 16 0) =
      idPrims.pbkdf2HmacSha256 100000 32 "pw" (List.replicate 16 0) ∧
    (derive_key idPrims "pw" (List.replicate 16 0)).length = 32 ∧
    (∀ (password2 : String) (salt2 : Bytes), password2 = "pw" → salt2 = List.replicate 16 0 →
      derive_key idPrims password2 salt2 = derive_key idPrims "pw" (List.replicate 16 0)) :=
  derive_key_spec idPrims (fun _ dkLen _ _ => by simp [idPrims]) "pw"
    (List.replicate 16 0) (by decide)

/-- Claim C8 (evaluation): encrypting the 11-byte plaintext "hello world" gives
a 48-byte container and decrypting it with the same passphrase returns the
plaintext - both as claimed - but decrypting it with the passphrase "wrong"
also reports success (returns `True`, with garbage output), contradicting the
claim's final part that it fails: no padding validation ever rejects a wrong
key. -/
theorem concrete_scenario_eval :
    (encrypt_file idPrims (List.replicate 16 0) (List.replicate 16 0)
        "correct horse battery staple" [104, 101, 108, 108, 111, 32, 119, 111, 114, 108, 100]).length = 48 ∧
    decrypt_file idPrims "correct horse battery staple"
        (encrypt_file idPrims (List.replicate 16 0) (List.replicate 16 0)
          "correct horse battery staple" [104, 101, 108, 108, 111, 32, 119, 111, 114, 108, 100]) =
      DecryptResult.success [104, 101, 108, 108, 111, 32, 119, 111, 114, 108, 100] ∧
    returnValue (decrypt_file idPrims "wrong"
        (encrypt_file idPrims (List.replicate 16 0) (List.replicate 16 0)
          "correct horse battery staple" [104, 101, 108, 108, 111, 32, 119, 111, 114, 108, 100])) = true := by
  refine ⟨by decide, by decide, by decide⟩

/-- Claim C9: for every container of length at least 33 whose ciphertext portion
has nonzero length divisible by 16, and for every passphrase, `decrypt_file`
reports success (returns `True`): the final decrypted byte is read as the pad
length and stripped without validation, and a final byte of 0 produces the
empty plaintext as a success. -/
theorem wellformed_container_always_succeeds (P : CryptoPrims) (password : String)
    (hdec : ∀ key b : Bytes, b.length = 16 → (P.aesDecBlock key b).length = 16)
    (container : Bytes) (h33 : 33 ≤ container.length)
    (hmod : (container.length - 32) % 16 = 0) :
    ∃ out : Bytes, decrypt_file P password container = DecryptResult.success out ∧
      returnValue (decrypt_file P password container) = true := by
  obtain ⟨out, hout⟩ := decrypt_wellformed_success P password hdec container h33 hmod
  exact ⟨out, hout, by rw [hout]; rfl⟩

/-- Witness for claim C9 at a 48-byte all-zero container, whose decryption under
the identity primitives ends in the byte 0 and returns the empty plaintext
as a success. -/
theorem wellformed_container_always_succeeds_witness :
    ∃ out : Bytes,
      decrypt_file idPrims "anything" (List.replicate 48 0) = DecryptResult.success out ∧
      returnValue (decrypt_file idPrims "anything" (List.replicate 48 0)) = true :=
  wellformed_container_always_succeeds idPrims "anything" (fun _ b hb => hb)
    (List.replicate 48 0) (by decide) (by decide)

/-- Claim C10: a container of exactly 32 bytes (salt and IV present, ciphertext
empty) satisfies the structural invariant yet `decrypt_file` fails (returns
`False`) for every passphrase: reading `padded_plaintext[-1]` on the empty
buffer raises `IndexError`, which the outer generic handler catches - it is
not reported as the structural `MalformedContainer` error. -/
theorem empty_ciphertext_generic_error (P : CryptoPrims) (password : String)
    (container : Bytes) (hlen : container.length = 32) :
    decrypt_file P password container = DecryptResult.genericError ∧
    returnValue (decrypt_file P password container) = false ∧
    decrypt_file P password container ≠ DecryptResult.malformedContainer := by
  have hct : (container.drop 16).drop 16 = [] :=
    List.eq_nil_of_length_eq_zero (by simp only [List.length_drop]; omega)
  have h1 : (container.take 16).length = 16 := by
    simp only [List.length_take]; omega
  have h2 : ((container.drop 16).take 16).length = 16 := by
    simp only [List.length_take, List.length_drop]; omega
  have hmain : decrypt_file P password container = DecryptResult.genericError := by
    simp only [decrypt_file, salt_size, iv_size, hct]
    rw [if_neg (by simp [h1, h2])]
    rfl
  exact ⟨hmain, by rw [hmain]; rfl, by rw [hmain]; exact fun hcontra => by cases hcontra⟩

/-- Witness for claim C10 at the 32-byte all-zero container. -/
theorem empty_ciphertext_generic_error_witness :
    decrypt_file idPrims "pw" (List.replicate 32 0) = DecryptResult.genericError ∧
    returnValue (decrypt_file idPrims "pw" (List.replicate 32 0)) = false ∧
    decrypt_file idPrims "pw" (List.replicate 32 0) ≠ DecryptResult.malformedContainer :=
  empty_ciphertext_generic_error idPrims "pw" (List.replicate 32 0) (by decide)

end ByteBastion
